import Mathlib

/-!
Shallow embedding of the batch data-movement pipeline in `src/scripts/functions.py`
(with the date helper from `src/scripts/elt-dev.py`), together with proofs of the
specification claims about it.

External collaborators (the boto3 client, the s3fs listing, the parquet reader,
and pandas' free-format datetime parser) are passed in as function parameters;
everything this repository's code computes itself is modelled concretely.
-/

/-- A cell value of an in-memory pandas column.  Floats carry exact rationals
(the pipeline only parses and reprints numbers, it never does float arithmetic)
plus the signed infinities `pd.to_numeric` produces from `"inf"`/`"-inf"`;
timestamps carry an abstract integer instant; `missing` stands for the family of
pandas missing markers (`NaN`, `NaT`, `pd.NA`, `None`). -/
inductive Value where
  | str (s : String)
  | int (n : Int)
  | float (q : Rat)
  | inf (neg : Bool)
  | ts (t : Int)
  | missing
deriving DecidableEq, Repr

/-- An in-memory table: ordered column names plus rows, each row listing the
cell values aligned with `cols`. -/
structure Table where
  cols : List String
  rows : List (List Value)
deriving DecidableEq, Repr

/-- One column description of the mojap-metadata schema: `name`, `type`, and
optional `datetime_format` (the code reads the same three fields out of both the
dict-shaped and the object-shaped variants). -/
structure MetaCol where
  name : String
  type : String
  datetime_format : Option String
deriving DecidableEq, Repr

deriving instance DecidableEq for Except

/-- Value of the first column named `name` in a row (missing when absent). -/
def rowLookup : List String → List Value → String → Value
  | [], _, _ => .missing
  | _, [], _ => .missing
  | c :: cs, v :: vs, name => if c = name then v else rowLookup cs vs name

/-- The values of column `name`, read off row by row. -/
def getColumn (df : Table) (name : String) : List Value :=
  df.rows.map (fun r => rowLookup df.cols r name)

/-- Is the character an uppercase letter of the Basic Latin or Latin-1 blocks
(`A`-`Z`, `À`-`Ö`, `Ø`-`Þ`)?  These are exactly the characters below U+0100
that Python's `str.lower` changes. -/
def isUpperLatin1 (c : Char) : Bool :=
  (65 ≤ c.toNat && c.toNat ≤ 90) || (192 ≤ c.toNat && c.toNat ≤ 214)
    || (216 ≤ c.toNat && c.toNat ≤ 222)

/-- Python's `str.lower` on one character, modelled exactly on the Basic Latin
and Latin-1 repertoire: each uppercase letter there lowers by adding 32.
Cased letters of the higher Unicode blocks are outside this model's scope, and
the character-level normalization statements below are restricted to the
modelled repertoire accordingly. -/
def charLower (c : Char) : Char :=
  if isUpperLatin1 c then Char.ofNat (c.toNat + 32) else c

/-- `s.lower()`, character by character. -/
def strLower (s : String) : String := String.mk (s.data.map charLower)

/-- `s.replace(" ", "_")`: every space becomes an underscore. -/
def replaceSpace (s : String) : String :=
  String.mk (s.data.map (fun c => if c = ' ' then '_' else c))

/-- `name.lower().replace(" ", "_")` — the normalization the code applies both
to table column names and to schema entry names before matching. -/
def normalizeName (s : String) : String := replaceSpace (strLower s)

/-- `normalize_column_names` (functions.py:152): rewrites every column label of
the table through `normalizeName`; the rows are untouched. -/
def normalize_column_names (df : Table) : Table :=
  { df with cols := df.cols.map normalizeName }

/-- Python's `s.endswith(suf)`. -/
def strEndsWith (s suf : String) : Bool := List.isSuffixOf suf.data s.data

/-- Python's `s.startswith(pre)`. -/
def strStartsWith (s pre : String) : Bool := List.isPrefixOf pre.data s.data

/-- Strip leading and trailing whitespace. -/
def trimChars (cs : List Char) : List Char :=
  ((cs.dropWhile Char.isWhitespace).reverse.dropWhile Char.isWhitespace).reverse

/-- Digits to the number they denote, most significant first. -/
def digitsToNat (ds : List Char) : Nat :=
  ds.foldl (fun a c => a * 10 + (c.toNat - 48)) 0

/-- Optional-sign digit run for an exponent; fails when no digit follows. -/
def parseExpDigits (cs : List Char) : Option (Int × List Char) :=
  let p : Bool × List Char :=
    match cs with
    | '-' :: r => (true, r)
    | '+' :: r => (false, r)
    | r => (false, r)
  let ds := p.2.takeWhile Char.isDigit
  let rest := p.2.dropWhile Char.isDigit
  if ds.isEmpty then none
  else some ((if p.1 then -(digitsToNat ds : Int) else (digitsToNat ds : Int)), rest)

/-- A trailing `e`/`E` exponent, or exponent 0 when none starts here. -/
def parseExpPart (cs : List Char) : Option (Int × List Char) :=
  match cs with
  | 'e' :: r => parseExpDigits r
  | 'E' :: r => parseExpDigits r
  | r => some (0, r)

/-- Assemble sign, integer digits, fraction digits and exponent into the exact
rational `±(ip.fp) * 10^ex`. -/
def ratOfParts (neg : Bool) (ip fp : List Char) (ex : Int) : Rat :=
  let mantNum : Int := digitsToNat ip * 10 ^ fp.length + digitsToNat fp
  let sNum : Int := if neg then -mantNum else mantNum
  if 0 ≤ ex then mkRat (sNum * 10 ^ ex.toNat) (10 ^ fp.length)
  else mkRat sNum (10 ^ fp.length * 10 ^ (-ex).toNat)

/-- The numeric-string parser behind `pd.to_numeric`: optional sign, decimal
digits with optional fraction and optional exponent, surrounding whitespace
allowed; anything else fails (and `errors="coerce"` turns that into missing). -/
def parseNumeric (s : String) : Option Rat :=
  let cs := trimChars s.data
  let p : Bool × List Char :=
    match cs with
    | '-' :: r => (true, r)
    | '+' :: r => (false, r)
    | r => (false, r)
  let ip := p.2.takeWhile Char.isDigit
  let cs2 := p.2.dropWhile Char.isDigit
  let q : List Char × List Char :=
    match cs2 with
    | '.' :: r => (r.takeWhile Char.isDigit, r.dropWhile Char.isDigit)
    | r => ([], r)
  if ip.isEmpty ∧ q.1.isEmpty then none
  else
    match parseExpPart q.2 with
    | some (ex, []) => some (ratOfParts p.1 ip q.1 ex)
    | _ => none

/-- A numeric value as `pd.to_numeric` produces it: an exact (decimal)
rational, or one of the signed infinities. -/
inductive PdNum where
  | rat (q : Rat)
  | posInf
  | negInf
deriving DecidableEq, Repr

/-- The full `pd.to_numeric` string parser: besides decimal numbers it also
recognizes the special floats — an optional sign followed by `inf` or
`infinity`, case-insensitively.  (A `"nan"` string parses to `NaN`, which this
model does not distinguish from the coerced missing marker.) -/
def parseNumericPd (s : String) : Option PdNum :=
  let cs := trimChars s.data
  let p : Bool × List Char :=
    match cs with
    | '-' :: r => (true, r)
    | '+' :: r => (false, r)
    | r => (false, r)
  let low := p.2.map charLower
  if low = "inf".data ∨ low = "infinity".data then
    some (if p.1 then .negInf else .posInf)
  else (parseNumeric s).map PdNum.rat

/-- How many times `p` divides `n`, and the remaining cofactor (driven by
explicit fuel). -/
def stripFactor (p : Nat) : Nat → Nat → Nat × Nat
  | 0, n => (0, n)
  | fuel + 1, n =>
    if 2 ≤ p ∧ n % p = 0 ∧ n ≠ 0 then
      let r := stripFactor p fuel (n / p)
      (r.1 + 1, r.2)
    else (0, n)

/-- Drop trailing `0` digits, keeping at least one digit. -/
def stripTrailingZeros (l : List Char) : List Char :=
  let r := (l.reverse.dropWhile (fun c => c = '0')).reverse
  if r.isEmpty then ['0'] else r

/-- Left-pad with `0` digits to length `k`. -/
def padLeftZeros (k : Nat) (l : List Char) : List Char :=
  List.replicate (k - l.length) '0' ++ l

/-- Python's `str` of a float, as an exact decimal: sign, integer part, a dot,
and the fraction digits without trailing zeros (`str(30.0) = "30.0"`,
`str(1.5) = "1.5"`).  Every rational `pd.to_numeric` produces has a
power-of-ten denominator, so the decimal form is exact; the scientific
notation Python switches to at extreme magnitudes is not modelled. -/
def ratDecimalStr (q : Rat) : String :=
  let s2 := stripFactor 2 q.den q.den
  let s5 := stripFactor 5 s2.2 s2.2
  if s5.2 = 1 then
    let k := max s2.1 s5.1
    let scaled := q.num.natAbs * 10 ^ k / q.den
    let ip := scaled / 10 ^ k
    let fp := scaled % 10 ^ k
    let fDigits := stripTrailingZeros (padLeftZeros k (toString fp).data)
    (if q.num < 0 then "-" else "") ++ toString ip ++ "." ++ String.mk fDigits
  else toString q.num ++ "/" ++ toString q.den

/-- String rendering of a present value (what Python's `str` shows; the
rendering of the abstract datetime instant stays abstract). -/
def valueStr : Value → String
  | .str s => s
  | .int n => toString n
  | .float q => ratDecimalStr q
  | .inf b => if b then "-inf" else "inf"
  | .ts t => toString t
  | .missing => ""

/-- `col.astype("string")` at cell level: missing markers stay missing
(`pd.NA`), every present value becomes its string rendering. -/
def castString : Value → Value
  | .missing => .missing
  | v => .str (valueStr v)

/-- The cell-level conversions `pd.to_datetime` performs are pandas internals
(an external collaborator): a format-aware string parse, and the epoch
interpretation of integer and float cells; each yields an instant, or `none`
where `errors="coerce"` turns the failure into a missing marker. -/
structure PdToDatetime where
  ofString : Option String → String → Option Int
  ofInt : Option String → Int → Option Int
  ofFloat : Option String → Rat → Option Int

/-- `pd.to_datetime(col, format=fmt, errors="coerce")` at cell level:
already-datetime cells pass through, strings parse with the format, numeric
cells go through pandas' epoch interpretation (an infinity overflows to
missing), and every failure coerces to missing — this cast never raises. -/
def castTimestamp (pd : PdToDatetime) (fmt : Option String) : Value → Value
  | .str s =>
    match pd.ofString fmt s with
    | some t => .ts t
    | none => .missing
  | .int n =>
    match pd.ofInt fmt n with
    | some t => .ts t
    | none => .missing
  | .float q =>
    match pd.ofFloat fmt q with
    | some t => .ts t
    | none => .missing
  | .inf _ => .missing
  | .ts t => .ts t
  | .missing => .missing

/-- `pd.to_numeric(col, errors="coerce")` at cell level: numeric strings parse
(integral ones to integers, as pandas keeps an integer dtype when it can, and
`inf` strings to infinities), numbers pass through, everything unparseable
coerces to missing. -/
def toNumericValue : Value → Value
  | .str s =>
    match parseNumericPd s with
    | some (.rat q) => if q.den = 1 then .int q.num else .float q
    | some .posInf => .inf false
    | some .negInf => .inf true
    | none => .missing
  | .int n => .int n
  | .float q => .float q
  | .inf b => .inf b
  | _ => .missing

/-- The `.astype("Int64")` step after numeric coercion: integers stay, missing
markers become `pd.NA`, integral floats cast — but a non-integral float or an
infinity makes pandas raise (the `TypeError` / non-finite cast errors),
modelled as `Except.error`. -/
def toInt64Value : Value → Except String Value
  | .int n => .ok (.int n)
  | .float q =>
    if q.den = 1 then .ok (.int q.num)
    else .error "cannot safely cast non-equivalent float64 to int64"
  | .inf _ => .error "Cannot convert non-finite values (NA or inf) to integer"
  | .missing => .ok .missing
  | .str _ => .error "cannot safely cast object to int64"
  | .ts _ => .error "cannot safely cast datetime64 to int64"

/-- The `int`/`integer` branch:
`pd.to_numeric(col, errors="coerce").astype("Int64")`, which can raise. -/
def castInt (v : Value) : Except String Value := toInt64Value (toNumericValue v)

/-- The if/elif type dispatch of `enforce_metadata_types` on one cell
(functions.py:190-197); an unrecognized tag applies no transformation, and
only the `int`/`integer` branch can raise. -/
def castValueE (pd : PdToDatetime) (tag : String) (fmt : Option String)
    (v : Value) : Except String Value :=
  if tag = "string" then .ok (castString v)
  else if strStartsWith tag "timestamp" then .ok (castTimestamp pd fmt v)
  else if tag = "int" ∨ tag = "integer" then castInt v
  else if tag = "float" ∨ tag = "double" then .ok (toNumericValue v)
  else .ok v

/-- Type tags the enforcement dispatch acts on at all. -/
def supportedTag (tag : String) : Bool :=
  tag = "string" || strStartsWith tag "timestamp" || tag = "int" || tag = "integer"
    || tag = "float" || tag = "double"

/-- Apply the fallible cast to the cells of a row that sit under a column
called `name` (the column assignment `df[col_name] = ...`); a raised cast
aborts the whole assignment. -/
def updateCellsE (name : String) (f : Value → Except String Value) :
    List String → List Value → Except String (List Value)
  | _, [] => .ok []
  | [], r => .ok r
  | c :: cs, v :: vs =>
    if c = name then
      match f v with
      | .error e => .error e
      | .ok w =>
        match updateCellsE name f cs vs with
        | .error e => .error e
        | .ok ws => .ok (w :: ws)
    else
      match updateCellsE name f cs vs with
      | .error e => .error e
      | .ok ws => .ok (v :: ws)

/-- Rebuild every row through the fallible per-row update; the first raised
cast aborts. -/
def mapRowsE (f : List Value → Except String (List Value)) :
    List (List Value) → Except String (List (List Value))
  | [] => .ok []
  | r :: rs =>
    match f r with
    | .error e => .error e
    | .ok r2 =>
      match mapRowsE f rs with
      | .error e => .error e
      | .ok rs2 => .ok (r2 :: rs2)

/-- One iteration of the `for col in metadata_obj.columns` loop
(functions.py:176-197): normalize the entry name, skip with a warning when the
column is absent, otherwise cast that column in place — a raised
`astype("Int64")` propagates out of the iteration. -/
def applyMetaColE (pd : PdToDatetime) (df : Table) (col : MetaCol) :
    Except String Table :=
  let col_name := normalizeName col.name
  if col_name ∈ df.cols then
    match mapRowsE (fun r => updateCellsE col_name
        (castValueE pd col.type col.datetime_format) df.cols r) df.rows with
    | .error e => .error e
    | .ok rows2 => .ok { cols := df.cols, rows := rows2 }
  else .ok df

/-- The loop of `enforce_metadata_types`, entry by entry in schema order; a
raised cast propagates (the caller keeps only the exception — the partially
mutated frame is abandoned with it). -/
def enforceListE (pd : PdToDatetime) : List MetaCol → Table → Except String Table
  | [], df => .ok df
  | e :: es, df =>
    match applyMetaColE pd df e with
    | .error msg => .error msg
    | .ok df2 => enforceListE pd es df2

/-- `enforce_metadata_types` (functions.py:165-199), with pandas' datetime
conversions supplied as `pd`; returns the coerced table, or the error of a
raised `astype("Int64")`. -/
def enforce_metadata_types (pd : PdToDatetime) (df : Table)
    (metadata_obj : List MetaCol) : Except String Table :=
  enforceListE pd metadata_obj df

/-- A degenerate datetime collaborator whose every conversion fails (so every
timestamp parse coerces to missing); used to instantiate concrete runs. -/
def pdNone : PdToDatetime :=
  { ofString := fun _ _ => none, ofInt := fun _ _ => none, ofFloat := fun _ _ => none }

/-- ASCII digit test (the `\d` of strptime's patterns). -/
def isDigitChar (c : Char) : Bool := 48 ≤ c.toNat && c.toNat ≤ 57

/-- A calendar date as year/month/day numbers. -/
structure Ymd where
  y : Nat
  m : Nat
  d : Nat
deriving DecidableEq, Repr

def isLeap (y : Nat) : Bool := (y % 4 = 0 && y % 100 ≠ 0) || y % 400 = 0

def daysInMonth (y m : Nat) : Nat :=
  if m = 2 then (if isLeap y then 29 else 28)
  else if m = 4 || m = 6 || m = 9 || m = 11 then 30
  else 31

/-- The calendar validation `datetime` applies after strptime matching. -/
def validYmd (dt : Ymd) : Bool :=
  1 ≤ dt.m && dt.m ≤ 12 && 1 ≤ dt.d && dt.d ≤ daysInMonth dt.y dt.m

/-- strptime's `%m` / `%d` field: two digits if available, else one. -/
def parseDigits12 (cs : List Char) : Option (Nat × List Char) :=
  match cs with
  | a :: b :: r =>
    if isDigitChar a then
      if isDigitChar b then some (digitsToNat [a, b], r)
      else some (digitsToNat [a], b :: r)
    else none
  | [a] => if isDigitChar a then some (digitsToNat [a], []) else none
  | [] => none

/-- strptime with format `%Y-%m-%d`: exactly four year digits, dash, one or two
month digits, dash, one or two day digits, nothing left over, then calendar
validation. -/
def strptimeChars : List Char → Option Ymd
  | y1 :: y2 :: y3 :: y4 :: sep1 :: rest =>
    if isDigitChar y1 && isDigitChar y2 && isDigitChar y3 && isDigitChar y4
        && (sep1 == '-') then
      match parseDigits12 rest with
      | some (m, sep2 :: rest2) =>
        if sep2 == '-' then
          match parseDigits12 rest2 with
          | some (d, []) =>
            let dt : Ymd := ⟨digitsToNat [y1, y2, y3, y4], m, d⟩
            if validYmd dt then some dt else none
          | _ => none
        else none
      | _ => none
    else none
  | _ => none

/-- Midnight of the date must fit pandas' nanosecond `Timestamp` range
(`Timestamp.min` = 1677-09-21 00:12:43.145224193, `Timestamp.max` =
2262-04-11 23:47:16.854775807), so the representable dates run from
1677-09-22 through 2262-04-11; outside it `OutOfBoundsDatetime` is raised. -/
def inPandasRange (dt : Ymd) : Bool :=
  16770922 ≤ dt.y * 10000 + dt.m * 100 + dt.d
    && dt.y * 10000 + dt.m * 100 + dt.d ≤ 22620411

/-- `pd.to_datetime(s, format='%Y-%m-%d')` on one string: strptime-style match,
calendar validation, and the nanosecond range check; `none` stands for a raised
parse/out-of-bounds exception. -/
def pdToDatetimeYmd (s : String) : Option Ymd :=
  match strptimeChars s.data with
  | some dt => if inPandasRange dt then some dt else none
  | none => none

/-- The ASCII digit character of `n % 10`. -/
def natDigit (n : Nat) : Char := Char.ofNat (48 + n % 10)

/-- Zero-padded two-digit field of strftime (`%m`, `%d`). -/
def pad2Chars (n : Nat) : List Char := [natDigit (n / 10), natDigit n]

/-- Zero-padded four-digit year field of strftime (`%Y`). -/
def pad4Chars (n : Nat) : List Char :=
  [natDigit (n / 1000), natDigit (n / 100), natDigit (n / 10), natDigit n]

/-- `.strftime('%Y-%m-%dT%H:%M:%S')` of the parsed date at midnight. -/
def strftimeIsoChars (dt : Ymd) : List Char :=
  pad4Chars dt.y ++ '-' :: pad2Chars dt.m ++ '-' :: pad2Chars dt.d ++ "T00:00:00".data

/-- `convert_to_iso_timestamp` (elt-dev.py:229-237): `None` passes through the
`pd.isna` guard; otherwise parse with format `%Y-%m-%d` and reformat, any
exception being caught, printed and turned into `None`. -/
def convert_to_iso_timestamp (date_str : Option String) : Option String :=
  match date_str with
  | none => none
  | some s =>
    match pdToDatetimeYmd s with
    | some dt => some (String.mk (strftimeIsoChars dt))
    | none => none

/-- A well-formed `YYYY-MM-DD` string as the specification words it: four year
digits, two month digits, two day digits, dash-separated, denoting a valid
calendar date. -/
def wellFormedYmdChars : List Char → Bool
  | [y1, y2, y3, y4, sep1, m1, m2, sep2, d1, d2] =>
    (sep1 == '-') && (sep2 == '-')
      && isDigitChar y1 && isDigitChar y2 && isDigitChar y3 && isDigitChar y4
      && isDigitChar m1 && isDigitChar m2 && isDigitChar d1 && isDigitChar d2
      && validYmd ⟨digitsToNat [y1, y2, y3, y4], digitsToNat [m1, m2], digitsToNat [d1, d2]⟩
  | _ => false

def wellFormedYmd (s : String) : Bool := wellFormedYmdChars s.data

/-- Did the call return normally (as opposed to raising)? -/
def exceptOk {ε α : Type} : Except ε α → Bool
  | .ok _ => true
  | .error _ => false

/-- The outcome of a `head_object` call as the code distinguishes it: success,
or a `ClientError` carrying the response's error code string.  (Non-client
failures would propagate uncaught through every function here, so they need no
constructor of their own.) -/
inductive HeadResult where
  | ok
  | clientError (code : String)
deriving DecidableEq, Repr

/-- `file_exists_in_s3` (functions.py:35-56): success means the object exists;
a `ClientError` with code "404" means it does not; any other client error is
re-raised (`Except.error`). -/
def file_exists_in_s3 (headObject : String → String → HeadResult)
    (bucket_name s3_key : String) : Except String Bool :=
  match headObject bucket_name s3_key with
  | .ok => .ok true
  | .clientError code => if code = "404" then .ok false else .error code

/-- `os.path.join` on POSIX for one extra component. -/
def pathJoin (a b : String) : String :=
  if strStartsWith b "/" then b
  else if a = "" then b
  else if strEndsWith a "/" then a ++ b
  else a ++ "/" ++ b

/-- `os.path.basename`: the part after the last slash. -/
def basename (p : String) : String :=
  String.mk ((p.data.reverse.takeWhile (fun c => c ≠ '/')).reverse)

/-- `list_parquet_files` (functions.py:19-33), with `os.listdir` supplied as a
parameter: the directory entries ending in `.parquet`, joined to the directory
path. -/
def list_parquet_files (listDir : String → List String)
    (local_directory : String) : List String :=
  ((listDir local_directory).filter (fun f => strEndsWith f ".parquet")).map
    (fun f => pathJoin local_directory f)

/-- The per-file loop of `upload_parquet_files_to_s3` (functions.py:74-93).
A raised existence-check error propagates (aborting the loop and losing the
accumulated list, exactly as an uncaught Python exception would); a skip or a
dry run uploads nothing; an upload failure is caught and the loop continues. -/
def uploadLoop (headObject : String → String → HeadResult)
    (uploadFile : String → String → String → Except String Unit)
    (bucket_name s3Pre : String) (dry_run : Bool) :
    List String → Except String (List String)
  | [] => .ok []
  | local_path :: rest =>
    let file_name := basename local_path
    let s3_key := s3Pre ++ "/" ++ file_name
    match file_exists_in_s3 headObject bucket_name s3_key with
    | .error e => .error e
    | .ok true => uploadLoop headObject uploadFile bucket_name s3Pre dry_run rest
    | .ok false =>
      if dry_run then uploadLoop headObject uploadFile bucket_name s3Pre dry_run rest
      else
        match uploadFile local_path bucket_name s3_key with
        | .ok _ =>
          (uploadLoop headObject uploadFile bucket_name s3Pre dry_run rest).map
            (fun l => local_path :: l)
        | .error _ => uploadLoop headObject uploadFile bucket_name s3Pre dry_run rest

/-- `upload_parquet_files_to_s3` (functions.py:58-93), with the boto3 calls
(`head_object`, `upload_file`) and `os.listdir` supplied as parameters.
`dry_run` defaults to `true` as in the source. -/
def upload_parquet_files_to_s3 (headObject : String → String → HeadResult)
    (uploadFile : String → String → String → Except String Unit)
    (listDir : String → List String)
    (bucket_name local_directory s3Pre : String) (dry_run : Bool := true) :
    Except String (List String) :=
  uploadLoop headObject uploadFile bucket_name s3Pre dry_run
    (list_parquet_files listDir local_directory)

/-- `list_parquet_files_from_s3` (functions.py:95-109), with `s3fs`' `ls`
supplied: the listed entries ending in `.parquet`. -/
def list_parquet_files_from_s3 (lsRemote : String → List String)
    (bucket_name s3Pre : String) : List String :=
  (lsRemote ("s3://" ++ bucket_name ++ "/" ++ s3Pre)).filter
    (fun f => strEndsWith f ".parquet")

/-- Column union in first-appearance order — how `pd.concat` (default
`sort=False`) builds the concatenated table's columns. -/
def unionCols (ls : List (List String)) : List String :=
  ls.foldl (fun acc cs => acc ++ cs.filter (fun c => !acc.contains c)) []

/-- `pd.concat(ts, ignore_index=True)`: rows of every table in order, each
reindexed to the union columns with missing markers where a table lacks a
column. -/
def concatTables (ts : List Table) : Table :=
  let cols := unionCols (ts.map Table.cols)
  { cols := cols
    rows := (ts.map (fun t => t.rows.map (fun r => cols.map (fun c => rowLookup t.cols r c)))).flatten }

/-- The `all_dfs` accumulator of `load_parquet_files_from_s3`: the tables of
the listed keys whose read succeeded, in listing order (a failed read is
logged and skipped — `Except.toOption`). -/
def loadedTables (lsRemote : String → List String)
    (readRemote : String → Except String Table)
    (bucket_name s3Pre : String) : List Table :=
  (list_parquet_files_from_s3 lsRemote bucket_name s3Pre).filterMap
    (fun fp => (readRemote ("s3://" ++ fp)).toOption)

/-- `load_parquet_files_from_s3` (functions.py:111-136), with the remote lister
and the parquet reader supplied.  With no successfully read tables the result
is `pd.DataFrame()` — no columns, no rows. -/
def load_parquet_files_from_s3 (lsRemote : String → List String)
    (readRemote : String → Except String Table)
    (bucket_name s3Pre : String) : Table :=
  let all_dfs := loadedTables lsRemote readRemote bucket_name s3Pre
  if all_dfs.isEmpty then { cols := [], rows := [] } else concatTables all_dfs

-- character-level facts about the normalization

theorem toNat_ofNat_of_lt {m : Nat} (h : m < 55296) : (Char.ofNat m).toNat = m := by
  have hv : m.isValidChar := Or.inl h
  simp only [Char.ofNat]
  split
  · rfl
  · exact absurd hv (by assumption)

theorem isUpperLatin1_bounds {c : Char} (h : isUpperLatin1 c = true) :
    (65 ≤ c.toNat ∧ c.toNat ≤ 90) ∨ (192 ≤ c.toNat ∧ c.toNat ≤ 214)
      ∨ (216 ≤ c.toNat ∧ c.toNat ≤ 222) := by
  have hx : (65 ≤ c.toNat ∧ c.toNat ≤ 90 ∨ 192 ≤ c.toNat ∧ c.toNat ≤ 214)
      ∨ 216 ≤ c.toNat ∧ c.toNat ≤ 222 := by simpa [isUpperLatin1] using h
  tauto

theorem charLower_toNat_of_upper {c : Char} (h : isUpperLatin1 c = true) :
    (charLower c).toNat = c.toNat + 32 := by
  have hb := isUpperLatin1_bounds h
  have hlt : c.toNat + 32 < 55296 := by omega
  simp only [charLower, if_pos h]
  exact toNat_ofNat_of_lt hlt

theorem charLower_of_not_upper {c : Char} (h : isUpperLatin1 c = false) :
    charLower c = c := by
  simp [charLower, h]

theorem charLower_idem (c : Char) : charLower (charLower c) = charLower c := by
  cases hu : isUpperLatin1 c with
  | false => rw [charLower_of_not_upper hu, charLower_of_not_upper hu]
  | true =>
    have h1 := charLower_toNat_of_upper hu
    have hb := isUpperLatin1_bounds hu
    have h2 : isUpperLatin1 (charLower c) = false := by
      cases hx : isUpperLatin1 (charLower c) with
      | false => rfl
      | true =>
        exfalso
        have hb2 := isUpperLatin1_bounds hx
        rw [h1] at hb2
        omega
    exact charLower_of_not_upper h2

theorem charLower_eq_space_iff (c : Char) : charLower c = ' ' ↔ c = ' ' := by
  constructor
  · intro h
    cases hu : isUpperLatin1 c with
    | false => rwa [charLower_of_not_upper hu] at h
    | true =>
      have h1 := charLower_toNat_of_upper hu
      have hb := isUpperLatin1_bounds hu
      rw [h] at h1
      have h32 : (' ' : Char).toNat = 32 := by decide
      omega
  · intro h
    subst h
    exact charLower_of_not_upper (by decide)

/-- The character-level action of `normalizeName`: lower the character, then
turn a space into an underscore. -/
def normChar (c : Char) : Char := if charLower c = ' ' then '_' else charLower c

theorem normChar_space : normChar ' ' = '_' := by decide

theorem normChar_of_other {c : Char} (hu : isUpperLatin1 c = false)
    (hs : c ≠ ' ') : normChar c = c := by
  have hl : charLower c = c := charLower_of_not_upper hu
  simp only [normChar, hl, if_neg hs]

theorem normChar_idem (c : Char) : normChar (normChar c) = normChar c := by
  by_cases hs : charLower c = ' '
  · simp only [normChar, if_pos hs]
    decide
  · simp only [normChar, if_neg hs, charLower_idem, if_neg hs]

theorem data_normalizeName (s : String) :
    (normalizeName s).data = s.data.map normChar := by
  simp only [normalizeName, replaceSpace, strLower, List.map_map]
  apply List.map_congr_left
  intro c _
  simp only [Function.comp_apply, normChar]

theorem string_eq_of_data {a b : String} (h : a.data = b.data) : a = b := by
  cases a
  cases b
  exact congrArg String.mk h

theorem normalizeName_idem (s : String) :
    normalizeName (normalizeName s) = normalizeName s := by
  apply string_eq_of_data
  rw [data_normalizeName, data_normalizeName, List.map_map]
  apply List.map_congr_left
  intro c _
  exact normChar_idem c

/-- C8: column-name normalization maps every name to its lowercase form with
each space replaced by an underscore and touches no other characters; it is
idempotent, and a table whose column names are already in normalized form
(no uppercase letter, no space) comes back unchanged.  The character-level
statements are scoped to the Basic Latin and Latin-1 repertoire, on which the
model of `str.lower` is exact. -/
theorem C8_normalize_column_names (df : Table) :
    (∀ s : String, normalizeName (normalizeName s) = normalizeName s)
    ∧ normalize_column_names (normalize_column_names df) = normalize_column_names df
    ∧ (∀ s : String, (normalizeName s).data = s.data.map normChar)
    ∧ normChar ' ' = '_'
    ∧ (∀ c : Char, isUpperLatin1 c = true → (normChar c).toNat = c.toNat + 32)
    ∧ (∀ c : Char, c.toNat < 256 → isUpperLatin1 c = false → c ≠ ' ' → normChar c = c)
    ∧ ((∀ nm ∈ df.cols, ∀ c ∈ nm.data,
          c.toNat < 256 ∧ isUpperLatin1 c = false ∧ c ≠ ' ') →
        normalize_column_names df = df) := by
  refine ⟨normalizeName_idem, ?_, data_normalizeName, normChar_space, ?_, ?_, ?_⟩
  · have hcols : (df.cols.map normalizeName).map normalizeName
        = df.cols.map normalizeName := by
      rw [List.map_map]
      apply List.map_congr_left
      intro s _
      exact normalizeName_idem s
    simp [normalize_column_names, hcols]
  · intro c hu
    have hlow : (charLower c).toNat = c.toNat + 32 := charLower_toNat_of_upper hu
    have hs : ¬ charLower c = ' ' := by
      intro he
      have hc : c = ' ' := (charLower_eq_space_iff c).1 he
      subst hc
      exact absurd hu (by decide)
    simp only [normChar, if_neg hs]
    exact hlow
  · intro c _ hu hs
    exact normChar_of_other hu hs
  · intro h
    have hcols : df.cols.map normalizeName = df.cols := by
      have hfix : ∀ nm ∈ df.cols, normalizeName nm = nm := by
        intro nm hnm
        apply string_eq_of_data
        rw [data_normalizeName]
        have hchars : ∀ c ∈ nm.data, normChar c = c := by
          intro c hc
          obtain ⟨_, hu, hsp⟩ := h nm hnm c hc
          exact normChar_of_other hu hsp
        calc nm.data.map normChar = nm.data.map id := List.map_congr_left hchars
          _ = nm.data := List.map_id nm.data
      calc df.cols.map normalizeName = df.cols.map id := List.map_congr_left hfix
        _ = df.cols := List.map_id df.cols
    simp [normalize_column_names, hcols]

theorem C8_witness :
    normalize_column_names { cols := ["date_of_birth", "äge"], rows := [] }
      = { cols := ["date_of_birth", "äge"], rows := [] } :=
  (C8_normalize_column_names _).2.2.2.2.2.2 (by decide)

/-- C6: the existence check reports present exactly when `head_object`
succeeds, reports absent exactly when the client signals a 404, and re-raises
any other client failure instead of treating it as absent. -/
theorem C6_existence_tristate (headObject : String → String → HeadResult)
    (bucket key : String) :
    (headObject bucket key = .ok → file_exists_in_s3 headObject bucket key = .ok true)
    ∧ (file_exists_in_s3 headObject bucket key = .ok false
        ↔ headObject bucket key = .clientError "404")
    ∧ (∀ code, headObject bucket key = .clientError code → code ≠ "404" →
        file_exists_in_s3 headObject bucket key = .error code) := by
  refine ⟨?_, ?_, ?_⟩
  · intro h
    simp [file_exists_in_s3, h]
  · constructor
    · intro h
      unfold file_exists_in_s3 at h
      cases hh : headObject bucket key with
      | ok => rw [hh] at h; simp at h
      | clientError code =>
        rw [hh] at h
        by_cases hc : code = "404"
        · rw [hc]
        · simp [hc] at h
    · intro h
      simp [file_exists_in_s3, h]
  · intro code h hne
    simp [file_exists_in_s3, h, hne]

theorem C6_witness :
    file_exists_in_s3 (fun _ _ => .ok) "b" "k" = .ok true
    ∧ file_exists_in_s3 (fun _ _ => .clientError "404") "b" "k" = .ok false
    ∧ file_exists_in_s3 (fun _ _ => .clientError "500") "b" "k" = .error "500" :=
  ⟨(C6_existence_tristate (fun _ _ => .ok) "b" "k").1 rfl,
   (C6_existence_tristate (fun _ _ => .clientError "404") "b" "k").2.1.2 rfl,
   (C6_existence_tristate (fun _ _ => .clientError "500") "b" "k").2.2 "500" rfl
     (by decide)⟩

theorem uploadLoop_dry_indep (headObject : String → String → HeadResult)
    (u1 u2 : String → String → String → Except String Unit) (bucket pre : String) :
    ∀ fs, uploadLoop headObject u1 bucket pre true fs
      = uploadLoop headObject u2 bucket pre true fs := by
  intro fs
  induction fs with
  | nil => rfl
  | cons f rest ih =>
    simp only [uploadLoop]
    cases hc : file_exists_in_s3 headObject bucket (pre ++ "/" ++ basename f) with
    | error e => rfl
    | ok b => cases b <;> simp [ih]

theorem uploadLoop_dry_ok (headObject : String → String → HeadResult)
    (u : String → String → String → Except String Unit) (bucket pre : String) :
    ∀ fs, (∀ f ∈ fs,
        exceptOk (file_exists_in_s3 headObject bucket (pre ++ "/" ++ basename f)) = true) →
      uploadLoop headObject u bucket pre true fs = .ok [] := by
  intro fs
  induction fs with
  | nil => intro _; rfl
  | cons f rest ih =>
    intro h
    have hf := h f (by simp)
    have hrest := fun g hg => h g (List.mem_cons_of_mem f hg)
    simp only [uploadLoop]
    cases hc : file_exists_in_s3 headObject bucket (pre ++ "/" ++ basename f) with
    | error e => rw [hc] at hf; simp [exceptOk] at hf
    | ok b => cases b <;> simp [ih hrest]

/-- C10: called without the `dry_run` argument the uploader defaults to dry-run
mode — the upload collaborator is never consulted (the result is the same for
any two upload functions) and, whenever every per-file existence check returns
normally, the returned list of uploaded files is empty. -/
theorem C10_default_dry_run (headObject : String → String → HeadResult)
    (u1 u2 : String → String → String → Except String Unit)
    (listDir : String → List String) (bucket dir pre : String) :
    upload_parquet_files_to_s3 headObject u1 listDir bucket dir pre
      = upload_parquet_files_to_s3 headObject u2 listDir bucket dir pre
    ∧ ((∀ f ∈ list_parquet_files listDir dir,
          exceptOk (file_exists_in_s3 headObject bucket (pre ++ "/" ++ basename f)) = true) →
        upload_parquet_files_to_s3 headObject u1 listDir bucket dir pre = .ok []) :=
  ⟨uploadLoop_dry_indep headObject u1 u2 bucket pre (list_parquet_files listDir dir),
   fun h => uploadLoop_dry_ok headObject u1 bucket pre (list_parquet_files listDir dir) h⟩

theorem C10_witness :
    upload_parquet_files_to_s3 (fun _ _ => .clientError "404") (fun _ _ _ => .ok ())
      (fun _ => ["a.parquet", "b.parquet"]) "bucket" "data/example-data"
      "de-intro-project-jb/dev" = .ok [] :=
  (C10_default_dry_run (fun _ _ => .clientError "404") (fun _ _ _ => .ok ())
    (fun _ _ _ => .error "boom") (fun _ => ["a.parquet", "b.parquet"])
    "bucket" "data/example-data" "de-intro-project-jb/dev").2 (by decide)

/-- Per-file description of "actually uploaded" as the specification words it:
the existence check reported absent, the run is not a dry run, and the upload
call succeeded. -/
def uploadedSpec (headObject : String → String → HeadResult)
    (uploadFile : String → String → String → Except String Unit)
    (bucket pre : String) (dry_run : Bool) (f : String) : Bool :=
  match file_exists_in_s3 headObject bucket (pre ++ "/" ++ basename f) with
  | .ok false =>
    if dry_run then false
    else
      match uploadFile f bucket (pre ++ "/" ++ basename f) with
      | .ok _ => true
      | .error _ => false
  | _ => false

theorem uploadLoop_filter (headObject : String → String → HeadResult)
    (uploadFile : String → String → String → Except String Unit)
    (bucket pre : String) (dry_run : Bool) :
    ∀ fs, (∀ f ∈ fs,
        exceptOk (file_exists_in_s3 headObject bucket (pre ++ "/" ++ basename f)) = true) →
      uploadLoop headObject uploadFile bucket pre dry_run fs
        = .ok (fs.filter (uploadedSpec headObject uploadFile bucket pre dry_run)) := by
  intro fs
  induction fs with
  | nil => intro _; rfl
  | cons f rest ih =>
    intro h
    have hf := h f (by simp)
    have hrest := ih (fun g hg => h g (List.mem_cons_of_mem f hg))
    simp only [uploadLoop, List.filter_cons]
    cases hc : file_exists_in_s3 headObject bucket (pre ++ "/" ++ basename f) with
    | error e => rw [hc] at hf; simp [exceptOk] at hf
    | ok b =>
      cases b with
      | true =>
        have hspec : uploadedSpec headObject uploadFile bucket pre dry_run f = false := by
          simp only [uploadedSpec, hc]
        simp [hspec, hrest]
      | false =>
        cases dry_run with
        | true =>
          have hspec : uploadedSpec headObject uploadFile bucket pre true f = false := by
            simp only [uploadedSpec, hc]
            simp
          simp [hspec, hrest]
        | false =>
          cases hu : uploadFile f bucket (pre ++ "/" ++ basename f) with
          | ok u =>
            have hspec : uploadedSpec headObject uploadFile bucket pre false f = true := by
              simp only [uploadedSpec, hc, hu]
              simp
            simp [hspec, hrest, Except.map]
          | error e =>
            have hspec : uploadedSpec headObject uploadFile bucket pre false f = false := by
              simp only [uploadedSpec, hc, hu]
              simp
            simp [hspec, hrest]

/-- C4 counterexample: in the claim's concrete case (directory
`data/example-data` holding `a.parquet` and `b.parquet`, destination already
holding `a.parquet`, `dry_run=False`, the one upload succeeding) the uploader
returns the joined local path, not the bare file name `b.parquet`. -/
theorem C4_counterexample :
    upload_parquet_files_to_s3
      (fun _ k => if k = "de-intro-project-jb/dev/a.parquet" then .ok else .clientError "404")
      (fun _ _ _ => .ok ()) (fun _ => ["a.parquet", "b.parquet"])
      "alpha-hmcts-de-testing-sandbox" "data/example-data" "de-intro-project-jb/dev" false
      ≠ .ok ["b.parquet"] := by
  decide

/-- C4 (amended): whenever every per-file existence check returns normally, the
uploader returns exactly the *local paths* (directory joined with file name) of
the files actually uploaded — dry-run and skipped files excluded — and in the
claim's concrete case that list is `["data/example-data/b.parquet"]`. -/
theorem C4_uploaded_files (headObject : String → String → HeadResult)
    (uploadFile : String → String → String → Except String Unit)
    (listDir : String → List String) (bucket dir pre : String) (dry_run : Bool) :
    ((∀ f ∈ list_parquet_files listDir dir,
        exceptOk (file_exists_in_s3 headObject bucket (pre ++ "/" ++ basename f)) = true) →
      upload_parquet_files_to_s3 headObject uploadFile listDir bucket dir pre dry_run
        = .ok ((list_parquet_files listDir dir).filter
            (uploadedSpec headObject uploadFile bucket pre dry_run)))
    ∧ upload_parquet_files_to_s3
        (fun _ k => if k = "de-intro-project-jb/dev/a.parquet" then .ok else .clientError "404")
        (fun _ _ _ => .ok ()) (fun _ => ["a.parquet", "b.parquet"])
        "alpha-hmcts-de-testing-sandbox" "data/example-data" "de-intro-project-jb/dev" false
        = .ok ["data/example-data/b.parquet"] := by
  constructor
  · intro h
    exact uploadLoop_filter headObject uploadFile bucket pre dry_run
      (list_parquet_files listDir dir) h
  · decide

theorem C4_witness :
    upload_parquet_files_to_s3
      (fun _ _ => .clientError "404") (fun _ _ _ => .ok ())
      (fun _ => ["a.parquet"]) "bucket" "d" "p" false
      = .ok (["d/a.parquet"].filter
          (uploadedSpec (fun _ _ => .clientError "404") (fun _ _ _ => .ok ()) "bucket" "p" false)) :=
  (C4_uploaded_files (fun _ _ => .clientError "404") (fun _ _ _ => .ok ())
      (fun _ => ["a.parquet"]) "bucket" "d" "p" false).1 (by decide)

/-- C5 counterexample: with two local files where the first file's existence
check raises an unexpected (non-404) client error, the uploader propagates the
error and aborts the whole batch — the remaining file is never processed —
contradicting the claim that per-file operations continue past it. -/
theorem C5_counterexample :
    upload_parquet_files_to_s3
      (fun _ k => if k = "de-intro-project-jb/dev/a.parquet" then .clientError "500"
        else .clientError "404")
      (fun _ _ _ => .ok ()) (fun _ => ["a.parquet", "b.parquet"])
      "alpha-hmcts-de-testing-sandbox" "data/example-data" "de-intro-project-jb/dev" false
      = .error "500" := by
  decide

/-- C5 (amended): an unexpected error raised by the per-file existence check
propagates out of the uploader, aborting the whole batch at that file; only
per-file *upload* failures are isolated — when every existence check returns
normally the loop always returns normally, whatever the upload outcomes. -/
theorem C5_existence_error_aborts (headObject : String → String → HeadResult)
    (uploadFile : String → String → String → Except String Unit)
    (bucket pre : String) (dry_run : Bool) :
    (∀ f rest e, file_exists_in_s3 headObject bucket (pre ++ "/" ++ basename f) = .error e →
      uploadLoop headObject uploadFile bucket pre dry_run (f :: rest) = .error e)
    ∧ (∀ fs, (∀ f ∈ fs,
          exceptOk (file_exists_in_s3 headObject bucket (pre ++ "/" ++ basename f)) = true) →
        exceptOk (uploadLoop headObject uploadFile bucket pre dry_run fs) = true) := by
  constructor
  · intro f rest e he
    simp only [uploadLoop, he]
  · intro fs h
    rw [uploadLoop_filter headObject uploadFile bucket pre dry_run fs h]
    rfl

theorem C5_witness :
    uploadLoop (fun _ _ => .clientError "500") (fun _ _ _ => .ok ()) "b" "p" false
      ["a.parquet", "b.parquet"] = .error "500"
    ∧ exceptOk (uploadLoop (fun _ _ => .clientError "404") (fun _ _ _ => .error "boom")
        "b" "p" false ["a.parquet", "b.parquet"]) = true :=
  ⟨(C5_existence_error_aborts (fun _ _ => .clientError "500") (fun _ _ _ => .ok ())
      "b" "p" false).1 "a.parquet" ["b.parquet"] "500" (by decide),
   (C5_existence_error_aborts (fun _ _ => .clientError "404") (fun _ _ _ => .error "boom")
      "b" "p" false).2 ["a.parquet", "b.parquet"] (by decide)⟩

theorem contains_true_of_mem {l : List String} {c : String} (h : c ∈ l) :
    l.contains c = true := by
  simpa using h

theorem filter_not_contains_self (cols : List String) :
    cols.filter (fun c => !cols.contains c) = [] := by
  apply List.filter_eq_nil_iff.2
  intro c hc
  simpa using hc

theorem foldl_union_const (cols : List String) :
    ∀ ts : List (List String), (∀ cs ∈ ts, cs = cols) →
      ts.foldl (fun acc cs => acc ++ cs.filter (fun c => !acc.contains c)) cols = cols := by
  intro ts
  induction ts with
  | nil => intro _; rfl
  | cons hd tl ih =>
    intro h
    have hhd : hd = cols := h hd (by simp)
    have hstep : cols ++ cols.filter (fun c => !cols.contains c) = cols := by
      simp [filter_not_contains_self]
    simp only [List.foldl_cons, hhd, hstep]
    exact ih (fun cs hcs => h cs (List.mem_cons_of_mem _ hcs))

theorem unionCols_all_eq (cols : List String) :
    ∀ ts : List (List String), ts ≠ [] → (∀ cs ∈ ts, cs = cols) →
      unionCols ts = cols := by
  intro ts hne h
  cases ts with
  | nil => exact absurd rfl hne
  | cons hd tl =>
    have hhd : hd = cols := h hd (by simp)
    have hfirst : ([] : List String) ++ cols.filter (fun c => !List.contains [] c) = cols := by
      simp
    simp only [unionCols, List.foldl_cons, hhd, hfirst]
    exact foldl_union_const cols tl (fun cs hcs => h cs (List.mem_cons_of_mem _ hcs))

theorem rowLookup_self :
    ∀ (cols : List String) (r : List Value), cols.Nodup → r.length = cols.length →
      cols.map (fun c => rowLookup cols r c) = r := by
  intro cols
  induction cols with
  | nil =>
    intro r _ hlen
    cases r with
    | nil => rfl
    | cons v vs => simp at hlen
  | cons c cs ih =>
    intro r hnd hlen
    cases r with
    | nil => simp at hlen
    | cons v vs =>
      have hc : c ∉ cs := (List.nodup_cons.1 hnd).1
      have hnd2 : cs.Nodup := (List.nodup_cons.1 hnd).2
      have hlen2 : vs.length = cs.length := by simpa using hlen
      simp only [List.map_cons]
      have hhead : rowLookup (c :: cs) (v :: vs) c = v := by simp [rowLookup]
      have htail : cs.map (fun x => rowLookup (c :: cs) (v :: vs) x)
          = cs.map (fun x => rowLookup cs vs x) := by
        apply List.map_congr_left
        intro x hx
        have hne : ¬ c = x := fun he => hc (he ▸ hx)
        simp [rowLookup, hne]
      rw [hhead, htail, ih vs hnd2 hlen2]

theorem concatTables_uniform (ts : List Table) (cols : List String)
    (hne : ts ≠ []) (hcols : ∀ t ∈ ts, t.cols = cols) (hnd : cols.Nodup)
    (hlen : ∀ t ∈ ts, ∀ r ∈ t.rows, r.length = cols.length) :
    concatTables ts = { cols := cols, rows := (ts.map Table.rows).flatten } := by
  have hu : unionCols (ts.map Table.cols) = cols := by
    apply unionCols_all_eq cols
    · simp [hne]
    · intro cs hcs
      obtain ⟨t, ht, rfl⟩ := List.mem_map.1 hcs
      exact hcols t ht
  simp only [concatTables, hu]
  have hrows : ts.map (fun t => t.rows.map (fun r => cols.map (fun c => rowLookup t.cols r c)))
      = ts.map Table.rows := by
    apply List.map_congr_left
    intro t ht
    have ht2 : t.cols = cols := hcols t ht
    rw [ht2]
    have hall : ∀ r ∈ t.rows, cols.map (fun c => rowLookup cols r c) = r := by
      intro r hr
      exact rowLookup_self cols r hnd (hlen t ht r hr)
    calc t.rows.map (fun r => cols.map (fun c => rowLookup cols r c))
        = t.rows.map id := List.map_congr_left hall
      _ = t.rows := List.map_id t.rows
  rw [hrows]

/-- C7: the loader drops the data of every key whose read fails and never
aborts (the result only depends on which reads succeed), returns a zero-column
zero-row table when nothing was read, and otherwise concatenates the
successfully read tables in listing order with row order preserved (stated for
tables sharing one duplicate-free column list). -/
theorem C7_load_from_s3 (lsRemote : String → List String)
    (readRemote : String → Except String Table) (bucket pre : String) :
    (loadedTables lsRemote readRemote bucket pre = [] →
      load_parquet_files_from_s3 lsRemote readRemote bucket pre
        = { cols := [], rows := [] })
    ∧ (∀ readRemote2 : String → Except String Table,
        (∀ k, (readRemote k).toOption = (readRemote2 k).toOption) →
        load_parquet_files_from_s3 lsRemote readRemote bucket pre
          = load_parquet_files_from_s3 lsRemote readRemote2 bucket pre)
    ∧ (∀ cols : List String, cols.Nodup →
        (∀ t ∈ loadedTables lsRemote readRemote bucket pre, t.cols = cols) →
        (∀ t ∈ loadedTables lsRemote readRemote bucket pre, ∀ r ∈ t.rows,
          r.length = cols.length) →
        loadedTables lsRemote readRemote bucket pre ≠ [] →
        load_parquet_files_from_s3 lsRemote readRemote bucket pre
          = { cols := cols,
              rows := ((loadedTables lsRemote readRemote bucket pre).map Table.rows).flatten }) := by
  refine ⟨?_, ?_, ?_⟩
  · intro h
    simp [load_parquet_files_from_s3, h]
  · intro r2 h
    have heq : loadedTables lsRemote readRemote bucket pre
        = loadedTables lsRemote r2 bucket pre := by
      unfold loadedTables
      apply List.filterMap_congr
      intro fp _
      exact h ("s3://" ++ fp)
    simp only [load_parquet_files_from_s3, heq]
  · intro cols hnd hcols hlen hne
    simp only [load_parquet_files_from_s3]
    rw [if_neg (by simpa using hne)]
    exact concatTables_uniform _ cols hne hcols hnd hlen

theorem C7_witness :
    load_parquet_files_from_s3 (fun _ => ["p/x.parquet", "p/y.parquet"])
      (fun k => if k = "s3://p/x.parquet" then .ok { cols := ["a"], rows := [[.int 1]] }
        else .error "read failed")
      "b" "p"
      = { cols := ["a"], rows := [[.int 1]] } :=
  (C7_load_from_s3 (fun _ => ["p/x.parquet", "p/y.parquet"])
    (fun k => if k = "s3://p/x.parquet" then .ok { cols := ["a"], rows := [[.int 1]] }
      else .error "read failed")
    "b" "p").2.2 ["a"] (by decide) (by decide) (by decide) (by decide)


theorem isDigitChar_bounds {c : Char} (h : isDigitChar c = true) :
    48 ≤ c.toNat ∧ c.toNat ≤ 57 := by
  simpa [isDigitChar] using h

theorem natDigit_eq_of_toNat {m : Nat} {c : Char} (h : 48 + m % 10 = c.toNat) :
    natDigit m = c := by
  have hx : natDigit m = Char.ofNat c.toNat := by rw [natDigit, h]
  rw [hx, Char.ofNat_toNat]

theorem digitsToNat_two (a b : Char) :
    digitsToNat [a, b] = (a.toNat - 48) * 10 + (b.toNat - 48) := by
  simp [digitsToNat]

theorem digitsToNat_four (a b c d : Char) :
    digitsToNat [a, b, c, d]
      = (((a.toNat - 48) * 10 + (b.toNat - 48)) * 10 + (c.toNat - 48)) * 10
        + (d.toNat - 48) := by
  simp [digitsToNat]

theorem pad2Chars_roundtrip {a b : Char} (ha : isDigitChar a = true)
    (hb : isDigitChar b = true) :
    pad2Chars (digitsToNat [a, b]) = [a, b] := by
  obtain ⟨ha1, ha2⟩ := isDigitChar_bounds ha
  obtain ⟨hb1, hb2⟩ := isDigitChar_bounds hb
  rw [digitsToNat_two]
  have h1 : natDigit (((a.toNat - 48) * 10 + (b.toNat - 48)) / 10) = a :=
    natDigit_eq_of_toNat (by omega)
  have h2 : natDigit ((a.toNat - 48) * 10 + (b.toNat - 48)) = b :=
    natDigit_eq_of_toNat (by omega)
  simp [pad2Chars, h1, h2]

theorem pad4Chars_roundtrip {a b c d : Char} (ha : isDigitChar a = true)
    (hb : isDigitChar b = true) (hc : isDigitChar c = true)
    (hd : isDigitChar d = true) :
    pad4Chars (digitsToNat [a, b, c, d]) = [a, b, c, d] := by
  obtain ⟨ha1, ha2⟩ := isDigitChar_bounds ha
  obtain ⟨hb1, hb2⟩ := isDigitChar_bounds hb
  obtain ⟨hc1, hc2⟩ := isDigitChar_bounds hc
  obtain ⟨hd1, hd2⟩ := isDigitChar_bounds hd
  rw [digitsToNat_four]
  have h1 : natDigit (((((a.toNat - 48) * 10 + (b.toNat - 48)) * 10 + (c.toNat - 48)) * 10
      + (d.toNat - 48)) / 1000) = a := natDigit_eq_of_toNat (by omega)
  have h2 : natDigit (((((a.toNat - 48) * 10 + (b.toNat - 48)) * 10 + (c.toNat - 48)) * 10
      + (d.toNat - 48)) / 100) = b := natDigit_eq_of_toNat (by omega)
  have h3 : natDigit (((((a.toNat - 48) * 10 + (b.toNat - 48)) * 10 + (c.toNat - 48)) * 10
      + (d.toNat - 48)) / 10) = c := natDigit_eq_of_toNat (by omega)
  have h4 : natDigit ((((a.toNat - 48) * 10 + (b.toNat - 48)) * 10 + (c.toNat - 48)) * 10
      + (d.toNat - 48)) = d := natDigit_eq_of_toNat (by omega)
  simp [pad4Chars, h1, h2, h3, h4]

theorem strptime_wellFormed (cs : List Char) (hw : wellFormedYmdChars cs = true) :
    ∃ dt : Ymd, strptimeChars cs = some dt ∧ validYmd dt = true
      ∧ strftimeIsoChars dt = cs ++ "T00:00:00".data := by
  unfold wellFormedYmdChars at hw
  split at hw
  case _ y1 y2 y3 y4 sep1 m1 m2 sep2 d1 d2 =>
    simp only [Bool.and_eq_true, beq_iff_eq] at hw
    obtain ⟨⟨⟨⟨⟨⟨⟨⟨⟨⟨hs1, hs2⟩, h1⟩, h2⟩, h3⟩, h4⟩, h5⟩, h6⟩, h7⟩, h8⟩, hv⟩ := hw
    subst hs1
    subst hs2
    refine ⟨⟨digitsToNat [y1, y2, y3, y4], digitsToNat [m1, m2], digitsToNat [d1, d2]⟩,
      ?_, hv, ?_⟩
    · simp [strptimeChars, parseDigits12, h1, h2, h3, h4, h5, h6, h7, h8, hv]
    · rw [strftimeIsoChars]
      rw [show (⟨digitsToNat [y1, y2, y3, y4], digitsToNat [m1, m2],
        digitsToNat [d1, d2]⟩ : Ymd).y = digitsToNat [y1, y2, y3, y4] from rfl]
      rw [show (⟨digitsToNat [y1, y2, y3, y4], digitsToNat [m1, m2],
        digitsToNat [d1, d2]⟩ : Ymd).m = digitsToNat [m1, m2] from rfl]
      rw [show (⟨digitsToNat [y1, y2, y3, y4], digitsToNat [m1, m2],
        digitsToNat [d1, d2]⟩ : Ymd).d = digitsToNat [d1, d2] from rfl]
      rw [pad4Chars_roundtrip h1 h2 h3 h4, pad2Chars_roundtrip h5 h6,
        pad2Chars_roundtrip h7 h8]
      simp
  case _ => exact absurd hw (by simp)

/-- C3 counterexample: `"1500-01-01"` is a well-formed `YYYY-MM-DD` string, yet
the helper returns the missing marker for it (pandas' nanosecond `Timestamp`
cannot represent the year 1500, the raised `OutOfBoundsDatetime` is caught and
`None` returned), so not every well-formed input maps to its midnight ISO
string. -/
theorem C3_counterexample :
    wellFormedYmd "1500-01-01" = true
    ∧ convert_to_iso_timestamp (some "1500-01-01") = none := by
  constructor
  · decide
  · decide

/-- C3 (amended): every well-formed `YYYY-MM-DD` string whose date is within
pandas' representable range (1677-09-22 through 2262-04-11) converts to the
ISO combined string `YYYY-MM-DDTHH:MM:SS` with midnight time; every input the
parse rejects yields the missing marker; a missing input passes through — the
helper never raises. -/
theorem C3_date_helper (s : String) :
    ((∀ dt, strptimeChars s.data = some dt → inPandasRange dt = true) →
      wellFormedYmd s = true →
      convert_to_iso_timestamp (some s) = some (s ++ "T00:00:00"))
    ∧ (pdToDatetimeYmd s = none → convert_to_iso_timestamp (some s) = none)
    ∧ convert_to_iso_timestamp none = none := by
  refine ⟨?_, ?_, rfl⟩
  · intro hr hw
    obtain ⟨dt, hp, hv, hf⟩ := strptime_wellFormed s.data hw
    have hrange : inPandasRange dt = true := hr dt hp
    simp only [convert_to_iso_timestamp, pdToDatetimeYmd, hp, hrange, if_pos]
    congr 1
    apply string_eq_of_data
    exact hf
  · intro h
    simp [convert_to_iso_timestamp, h]

theorem C3_witness :
    convert_to_iso_timestamp (some "2020-01-01") = some ("2020-01-01" ++ "T00:00:00") :=
  (C3_date_helper "2020-01-01").1
    (by
      intro dt h
      have hs : strptimeChars "2020-01-01".data = some ⟨2020, 1, 1⟩ := by decide
      rw [hs] at h
      injection h with h2
      rw [← h2]
      decide)
    (by decide)

/-- Is the value a string cell or a missing marker? -/
def isStrOrMissing : Value → Bool
  | .str _ => true
  | .missing => true
  | _ => false

/-- Is the value a datetime cell or a missing marker? -/
def isTsOrMissing : Value → Bool
  | .ts _ => true
  | .missing => true
  | _ => false

/-- Is the value an integer cell or a missing marker? -/
def isIntOrMissing : Value → Bool
  | .int _ => true
  | .missing => true
  | _ => false

/-- Is the value a float cell (an infinity included) or a missing marker? -/
def isFloatOrMissing : Value → Bool
  | .float _ => true
  | .inf _ => true
  | .missing => true
  | _ => false

/-- Does the value already carry the type a tag declares (missing markers
count, as every pandas dtype has one)?  For unrecognized tags everything
counts, since no cast is applied. -/
def hasDeclTypeB (tag : String) (v : Value) : Bool :=
  if tag = "string" then isStrOrMissing v
  else if strStartsWith tag "timestamp" then isTsOrMissing v
  else if tag = "int" ∨ tag = "integer" then isIntOrMissing v
  else if tag = "float" ∨ tag = "double" then isFloatOrMissing v
  else true

/-- Every cell sitting under column `name` of the table already has the
declared type `tag`. -/
def cellsTyped (tag name : String) (df : Table) : Prop :=
  ∀ r ∈ df.rows, ∀ pr ∈ df.cols.zip r, pr.1 = name → hasDeclTypeB tag pr.2 = true

instance cellsTypedDecidable (tag name : String) (df : Table) :
    Decidable (cellsTyped tag name df) := by
  unfold cellsTyped
  infer_instance


theorem castInt_ok_shape {v w : Value} (h : castInt v = .ok w) :
    (∃ n : Int, w = .int n) ∨ w = .missing := by
  unfold castInt at h
  cases hx : toNumericValue v with
  | str s => rw [hx] at h; simp [toInt64Value] at h
  | int n =>
    rw [hx] at h
    simp only [toInt64Value, Except.ok.injEq] at h
    exact Or.inl ⟨n, h.symm⟩
  | float q =>
    rw [hx] at h
    by_cases hd : q.den = 1
    · simp only [toInt64Value, if_pos hd, Except.ok.injEq] at h
      exact Or.inl ⟨q.num, h.symm⟩
    · simp [toInt64Value, hd] at h
  | inf b => rw [hx] at h; simp [toInt64Value] at h
  | ts t => rw [hx] at h; simp [toInt64Value] at h
  | missing =>
    rw [hx] at h
    simp only [toInt64Value, Except.ok.injEq] at h
    exact Or.inr h.symm

theorem castValueE_unsupported (pd : PdToDatetime) {tag : String} (fmt : Option String)
    (h : supportedTag tag = false) (v : Value) : castValueE pd tag fmt v = .ok v := by
  have h1 : ¬ tag = "string" := fun he => by simp [supportedTag, he] at h
  have h2 : ¬ strStartsWith tag "timestamp" = true := fun he => by
    simp [supportedTag, he] at h
  have h3 : ¬ (tag = "int" ∨ tag = "integer") := by
    rintro (he | he) <;> simp [supportedTag, he] at h
  have h4 : ¬ (tag = "float" ∨ tag = "double") := by
    rintro (he | he) <;> simp [supportedTag, he] at h
  unfold castValueE
  rw [if_neg h1, if_neg h2, if_neg h3, if_neg h4]

theorem updateCellsE_id (name : String) (f : Value → Except String Value)
    (h : ∀ v, f v = .ok v) :
    ∀ (cols : List String) (r : List Value), updateCellsE name f cols r = .ok r := by
  intro cols
  induction cols with
  | nil => intro r; cases r <;> rfl
  | cons c cs ih =>
    intro r
    cases r with
    | nil => rfl
    | cons v vs => by_cases hc : c = name <;> simp [updateCellsE, hc, h, ih]

theorem updateCellsE_fixed (name : String) (f : Value → Except String Value) :
    ∀ (cols : List String) (r : List Value),
      (∀ pr ∈ cols.zip r, pr.1 = name → f pr.2 = .ok pr.2) →
      updateCellsE name f cols r = .ok r := by
  intro cols
  induction cols with
  | nil => intro r _; cases r <;> rfl
  | cons c cs ih =>
    intro r h
    cases r with
    | nil => rfl
    | cons v vs =>
      have hrest : updateCellsE name f cs vs = .ok vs := by
        apply ih
        intro pr hpr
        exact h pr (by simp [List.zip_cons_cons, hpr])
      by_cases hc : c = name
      · have hv : f v = .ok v := h (c, v) (by simp [List.zip_cons_cons]) hc
        simp [updateCellsE, hc, hv, hrest]
      · simp [updateCellsE, hc, hrest]

theorem updateCellsE_cons_ok {name : String} {f : Value → Except String Value}
    {c : String} {cs : List String} {v : Value} {vs res : List Value}
    (h : updateCellsE name f (c :: cs) (v :: vs) = .ok res) :
    ∃ w ws, res = w :: ws ∧ updateCellsE name f cs vs = .ok ws
      ∧ ((c = name ∧ f v = .ok w) ∨ (¬ c = name ∧ w = v)) := by
  by_cases hc : c = name
  · simp only [updateCellsE, if_pos hc] at h
    cases hf : f v with
    | error e => rw [hf] at h; simp at h
    | ok w =>
      rw [hf] at h
      cases hrec : updateCellsE name f cs vs with
      | error e => rw [hrec] at h; simp at h
      | ok ws =>
        rw [hrec] at h
        simp only [Except.ok.injEq] at h
        exact ⟨w, ws, h.symm, rfl, Or.inl ⟨hc, rfl⟩⟩
  · simp only [updateCellsE, if_neg hc] at h
    cases hrec : updateCellsE name f cs vs with
    | error e => rw [hrec] at h; simp at h
    | ok ws =>
      rw [hrec] at h
      simp only [Except.ok.injEq] at h
      exact ⟨v, ws, h.symm, rfl, Or.inr ⟨hc, rfl⟩⟩

theorem updateCellsE_length (name : String) (f : Value → Except String Value) :
    ∀ (cols : List String) (r r2 : List Value),
      updateCellsE name f cols r = .ok r2 → r2.length = r.length := by
  intro cols
  induction cols with
  | nil =>
    intro r r2 h
    cases r with
    | nil =>
      simp only [updateCellsE, Except.ok.injEq] at h
      rw [← h]
    | cons v vs =>
      simp only [updateCellsE, Except.ok.injEq] at h
      rw [← h]
  | cons c cs ih =>
    intro r r2 h
    cases r with
    | nil =>
      simp only [updateCellsE, Except.ok.injEq] at h
      rw [← h]
    | cons v vs =>
      obtain ⟨w, ws, rfl, hrec, _⟩ := updateCellsE_cons_ok h
      simp [ih vs ws hrec]

theorem rowLookup_updateCellsE_ne (name c : String) (f : Value → Except String Value)
    (hne : name ≠ c) :
    ∀ (cols : List String) (r r2 : List Value),
      updateCellsE name f cols r = .ok r2 →
      rowLookup cols r2 c = rowLookup cols r c := by
  intro cols
  induction cols with
  | nil => intro r r2 h; simp [rowLookup]
  | cons a as ih =>
    intro r r2 h
    cases r with
    | nil =>
      simp only [updateCellsE, Except.ok.injEq] at h
      rw [← h]
    | cons v vs =>
      obtain ⟨w, ws, rfl, hrec, hcase⟩ := updateCellsE_cons_ok h
      have htail := ih vs ws hrec
      by_cases hac : a = c
      · rcases hcase with ⟨han, _⟩ | ⟨_, rfl⟩
        · exact absurd (by rw [← han, hac]) hne
        · simp [rowLookup, hac]
      · simp [rowLookup, hac, htail]

theorem mapRowsE_fixed (f : List Value → Except String (List Value)) :
    ∀ rs : List (List Value), (∀ r ∈ rs, f r = .ok r) → mapRowsE f rs = .ok rs := by
  intro rs
  induction rs with
  | nil => intro _; rfl
  | cons r rs ih =>
    intro h
    have h1 : f r = .ok r := h r (List.mem_cons_self r rs)
    have h2 : mapRowsE f rs = .ok rs := ih (fun x hx => h x (List.mem_cons_of_mem _ hx))
    simp [mapRowsE, h1, h2]

theorem mapRowsE_forall₂ {f : List Value → Except String (List Value)} :
    ∀ {rs rs2 : List (List Value)}, mapRowsE f rs = .ok rs2 →
      List.Forall₂ (fun r r2 => f r = .ok r2) rs rs2 := by
  intro rs
  induction rs with
  | nil =>
    intro rs2 h
    simp only [mapRowsE, Except.ok.injEq] at h
    rw [← h]
    exact List.Forall₂.nil
  | cons r rs ih =>
    intro rs2 h
    simp only [mapRowsE] at h
    cases hf : f r with
    | error e => rw [hf] at h; simp at h
    | ok r2 =>
      rw [hf] at h
      cases hrec : mapRowsE f rs with
      | error e => rw [hrec] at h; simp at h
      | ok rs2b =>
        rw [hrec] at h
        simp only [Except.ok.injEq] at h
        rw [← h]
        exact List.Forall₂.cons hf (ih hrec)

theorem map_eq_of_forall₂ {α β : Type} {R : α → α → Prop} {g : α → β}
    (hg : ∀ a b, R a b → g b = g a) :
    ∀ {l1 l2 : List α}, List.Forall₂ R l1 l2 → l2.map g = l1.map g := by
  intro l1 l2 h
  induction h with
  | nil => rfl
  | cons hab htail ih => simp [List.map_cons, hg _ _ hab, ih]

/-- The cells of column `name` are all fixed points of the cast a schema
entry with tag `tag` and format `fmt` applies. -/
def colFixed (pd : PdToDatetime) (tag : String) (fmt : Option String)
    (name : String) (t : Table) : Prop :=
  ∀ r ∈ t.rows, ∀ pr ∈ t.cols.zip r, pr.1 = name →
    castValueE pd tag fmt pr.2 = .ok pr.2

theorem applyMetaColE_of_not_mem (pd : PdToDatetime) (df : Table) (col : MetaCol)
    (h : normalizeName col.name ∉ df.cols) : applyMetaColE pd df col = .ok df := by
  simp [applyMetaColE, h]

theorem applyMetaColE_ok_cases {pd : PdToDatetime} {df t : Table} {col : MetaCol}
    (h : applyMetaColE pd df col = .ok t) :
    (normalizeName col.name ∉ df.cols ∧ t = df) ∨
    (normalizeName col.name ∈ df.cols ∧ t.cols = df.cols ∧
      List.Forall₂ (fun r r2 => updateCellsE (normalizeName col.name)
          (castValueE pd col.type col.datetime_format) df.cols r = .ok r2)
        df.rows t.rows) := by
  by_cases hm : normalizeName col.name ∈ df.cols
  · simp only [applyMetaColE] at h
    rw [if_pos hm] at h
    cases hmap : mapRowsE (fun r => updateCellsE (normalizeName col.name)
        (castValueE pd col.type col.datetime_format) df.cols r) df.rows with
    | error e => rw [hmap] at h; simp at h
    | ok rows2 =>
      rw [hmap] at h
      simp only [Except.ok.injEq] at h
      refine Or.inr ⟨hm, ?_, ?_⟩
      · rw [← h]
      · rw [← h]
        exact mapRowsE_forall₂ hmap
  · simp only [applyMetaColE] at h
    rw [if_neg hm] at h
    simp only [Except.ok.injEq] at h
    exact Or.inl ⟨hm, h.symm⟩

theorem applyMetaColE_cols {pd : PdToDatetime} {df t : Table} {col : MetaCol}
    (h : applyMetaColE pd df col = .ok t) : t.cols = df.cols := by
  rcases applyMetaColE_ok_cases h with ⟨_, rfl⟩ | ⟨_, hc, _⟩
  · rfl
  · exact hc

theorem applyMetaColE_rows_length {pd : PdToDatetime} {df t : Table} {col : MetaCol}
    (h : applyMetaColE pd df col = .ok t) : t.rows.length = df.rows.length := by
  rcases applyMetaColE_ok_cases h with ⟨_, rfl⟩ | ⟨_, _, hf⟩
  · rfl
  · exact hf.length_eq.symm

theorem getColumn_applyMetaColE_ne {pd : PdToDatetime} {df t : Table} {col : MetaCol}
    {c : String} (hne : normalizeName col.name ≠ c)
    (h : applyMetaColE pd df col = .ok t) : getColumn t c = getColumn df c := by
  rcases applyMetaColE_ok_cases h with ⟨_, rfl⟩ | ⟨_, hc, hf⟩
  · rfl
  · unfold getColumn
    rw [hc]
    exact map_eq_of_forall₂
      (fun r r2 hr => rowLookup_updateCellsE_ne _ c _ hne df.cols r r2 hr) hf

theorem applyMetaColE_fixed {pd : PdToDatetime} {df : Table} {col : MetaCol}
    (h : colFixed pd col.type col.datetime_format (normalizeName col.name) df) :
    applyMetaColE pd df col = .ok df := by
  by_cases hm : normalizeName col.name ∈ df.cols
  · have hrows : mapRowsE (fun r => updateCellsE (normalizeName col.name)
        (castValueE pd col.type col.datetime_format) df.cols r) df.rows = .ok df.rows :=
      mapRowsE_fixed _ df.rows (fun r hr =>
        updateCellsE_fixed _ _ df.cols r (fun pr hpr hn => h r hr pr hpr hn))
    simp only [applyMetaColE]
    rw [if_pos hm, hrows]
  · exact applyMetaColE_of_not_mem pd df col hm

theorem applyMetaColE_unsupported {pd : PdToDatetime} (df : Table) {col : MetaCol}
    (h : supportedTag col.type = false) : applyMetaColE pd df col = .ok df :=
  applyMetaColE_fixed
    (fun _ _ pr _ _ => castValueE_unsupported pd col.datetime_format h pr.2)

theorem enforceListE_cols {pd : PdToDatetime} :
    ∀ {es : List MetaCol} {df t : Table},
      enforceListE pd es df = .ok t → t.cols = df.cols := by
  intro es
  induction es with
  | nil =>
    intro df t h
    simp only [enforceListE, Except.ok.injEq] at h
    rw [← h]
  | cons e es ih =>
    intro df t h
    simp only [enforceListE] at h
    cases ha : applyMetaColE pd df e with
    | error msg => rw [ha] at h; simp at h
    | ok df2 =>
      rw [ha] at h
      exact (ih h).trans (applyMetaColE_cols ha)

theorem enforceListE_rows_length {pd : PdToDatetime} :
    ∀ {es : List MetaCol} {df t : Table},
      enforceListE pd es df = .ok t → t.rows.length = df.rows.length := by
  intro es
  induction es with
  | nil =>
    intro df t h
    simp only [enforceListE, Except.ok.injEq] at h
    rw [← h]
  | cons e es ih =>
    intro df t h
    simp only [enforceListE] at h
    cases ha : applyMetaColE pd df e with
    | error msg => rw [ha] at h; simp at h
    | ok df2 =>
      rw [ha] at h
      exact (ih h).trans (applyMetaColE_rows_length ha)

theorem getColumn_enforceListE {pd : PdToDatetime} {c : String} :
    ∀ {es : List MetaCol} {df t : Table},
      (∀ e ∈ es, normalizeName e.name ≠ c) →
      enforceListE pd es df = .ok t → getColumn t c = getColumn df c := by
  intro es
  induction es with
  | nil =>
    intro df t _ h
    simp only [enforceListE, Except.ok.injEq] at h
    rw [← h]
  | cons e es ih =>
    intro df t hns h
    simp only [enforceListE] at h
    cases ha : applyMetaColE pd df e with
    | error msg => rw [ha] at h; simp at h
    | ok df2 =>
      rw [ha] at h
      have h1 := ih (fun e2 he2 => hns e2 (List.mem_cons_of_mem _ he2)) h
      have h2 := getColumn_applyMetaColE_ne (hns e (List.mem_cons_self e es)) ha
      exact h1.trans h2

/-- C2 counterexample to the unamended claim: under an `integer` entry the
value `"1.5"` is not unparseable (it coerces to the non-integral float `1.5`),
so `.astype("Int64")` raises and enforcement returns an error — no column of
integers-or-missing is produced. -/
theorem C2_counterexample :
    enforce_metadata_types pdNone { cols := ["age"], rows := [[.str "1.5"]] }
        [⟨"age", "integer", none⟩] =
      .error "cannot safely cast non-equivalent float64 to int64" := by
  decide

/-- C2 (amended): for a schema entry tagged `int` or `integer` the cast is
`pd.to_numeric(errors="coerce").astype("Int64")`: (1) every cell value it
returns is an integer or the missing marker (a nullable-integer column);
(2) an unparseable string coerces to missing; (3) a non-integral float makes
`astype("Int64")` raise instead of returning; (4) the column
`["30", "x", "25"]` becomes `[30, missing, 25]` exactly as claimed; and
(5) the column `["1.5"]` makes the whole enforcement return the raised
error. -/
theorem C2_integer_enforcement (tag : String) (htag : tag = "int" ∨ tag = "integer") :
    (∀ (pd : PdToDatetime) (fmt : Option String) (v w : Value),
        castValueE pd tag fmt v = .ok w → isIntOrMissing w = true) ∧
    (∀ (pd : PdToDatetime) (fmt : Option String) (s : String),
        parseNumericPd s = none → castValueE pd tag fmt (.str s) = .ok .missing) ∧
    (∀ (pd : PdToDatetime) (fmt : Option String) (q : Rat), q.den ≠ 1 →
        castValueE pd tag fmt (.float q) =
          .error "cannot safely cast non-equivalent float64 to int64") ∧
    enforce_metadata_types pdNone
        { cols := ["age"], rows := [[.str "30"], [.str "x"], [.str "25"]] }
        [⟨"age", tag, none⟩] =
      .ok { cols := ["age"], rows := [[.int 30], [.missing], [.int 25]] } ∧
    enforce_metadata_types pdNone
        { cols := ["age"], rows := [[.str "1.5"]] } [⟨"age", tag, none⟩] =
      .error "cannot safely cast non-equivalent float64 to int64" := by
  have hstr : ¬ tag = "string" := by
    rcases htag with rfl | rfl <;> decide
  have hts : ¬ strStartsWith tag "timestamp" = true := by
    rcases htag with rfl | rfl <;> decide
  have hcast : ∀ (pd : PdToDatetime) (fmt : Option String) (v : Value),
      castValueE pd tag fmt v = castInt v := by
    intro pd fmt v
    unfold castValueE
    rw [if_neg hstr, if_neg hts, if_pos htag]
  refine ⟨?_, ?_, ?_, ?_, ?_⟩
  · intro pd fmt v w h
    rw [hcast] at h
    rcases castInt_ok_shape h with ⟨n, rfl⟩ | rfl <;> rfl
  · intro pd fmt s hp
    rw [hcast]
    simp [castInt, toNumericValue, hp, toInt64Value]
  · intro pd fmt q hd
    rw [hcast]
    simp [castInt, toNumericValue, toInt64Value, hd]
  · rcases htag with rfl | rfl <;> decide
  · rcases htag with rfl | rfl <;> decide

/-- C2 witness: the claim's own example, with tag `integer`, evaluated on a
concrete run. -/
theorem C2_witness :
    enforce_metadata_types pdNone
        { cols := ["age"], rows := [[.str "30"], [.str "x"], [.str "25"]] }
        [⟨"age", "integer", none⟩] =
      .ok { cols := ["age"], rows := [[.int 30], [.missing], [.int 25]] } :=
  (C2_integer_enforcement "integer" (Or.inr rfl)).2.2.2.1

/-- C9: whenever `enforce_metadata_types` returns a table, that table keeps
the column list (no reorder, no drop) and the row count of the input; every
column targeted by no schema entry's normalized name keeps exactly its
original values; a type tag outside string/timestamp*/int/integer/float/double
applies no transformation to any cell; and an entry naming a column absent
from the table leaves its loop iteration as the identity, never an error. -/
theorem C9_enforce_frame (pd : PdToDatetime) (es : List MetaCol) (df t : Table)
    (h : enforce_metadata_types pd df es = .ok t) :
    t.cols = df.cols ∧
    t.rows.length = df.rows.length ∧
    (∀ c : String, (∀ e ∈ es, normalizeName e.name ≠ c) →
      getColumn t c = getColumn df c) ∧
    (∀ (tag : String) (fmt : Option String) (v : Value), supportedTag tag = false →
      castValueE pd tag fmt v = .ok v) ∧
    (∀ col : MetaCol, normalizeName col.name ∉ df.cols →
      applyMetaColE pd df col = .ok df) :=
  ⟨enforceListE_cols h, enforceListE_rows_length h,
    fun _ hc => getColumn_enforceListE hc h,
    fun _ fmt v hts => castValueE_unsupported pd fmt hts v,
    fun col hm => applyMetaColE_of_not_mem pd df col hm⟩

/-- C9 witness: a concrete `integer` enforcement run keeps the two-column
list and leaves the untargeted `name` column untouched. -/
theorem C9_witness :
    Table.cols
        { cols := ["age", "name"],
          rows := [[Value.int 30, Value.str "jo"], [Value.missing, Value.str "bo"]] } =
      Table.cols
        { cols := ["age", "name"],
          rows := [[Value.str "30", Value.str "jo"], [Value.str "x", Value.str "bo"]] } ∧
    getColumn
        { cols := ["age", "name"],
          rows := [[Value.int 30, Value.str "jo"], [Value.missing, Value.str "bo"]] }
        "name" =
      getColumn
        { cols := ["age", "name"],
          rows := [[Value.str "30", Value.str "jo"], [Value.str "x", Value.str "bo"]] }
        "name" :=
  ⟨(C9_enforce_frame pdNone [⟨"Age", "integer", none⟩]
      { cols := ["age", "name"],
        rows := [[Value.str "30", Value.str "jo"], [Value.str "x", Value.str "bo"]] }
      { cols := ["age", "name"],
        rows := [[Value.int 30, Value.str "jo"], [Value.missing, Value.str "bo"]] }
      (by decide)).1,
   (C9_enforce_frame pdNone [⟨"Age", "integer", none⟩]
      { cols := ["age", "name"],
        rows := [[Value.str "30", Value.str "jo"], [Value.str "x", Value.str "bo"]] }
      { cols := ["age", "name"],
        rows := [[Value.int 30, Value.str "jo"], [Value.missing, Value.str "bo"]] }
      (by decide)).2.2.1 "name" (by decide)⟩
